import Mathlib

/-!
Verification of the background task coordination layer of the
Workforce-Accelerator-Suite backend: the multi-pool TTL cache
(`backend/core/cache.py`, legacy `backend/services/cache.py`), the unified
task scheduler (`backend/core/scheduler.py`) and the task logger
(`backend/core/task_logger.py`), shallowly embedded in Lean.

Time is modelled in integer seconds.  Python exceptions are modelled as
explicit `Except` results where the source can raise, and as outcome data
where the source catches them.
-/

/-- A Python value as stored in cache pools and log payloads.  The
constructor `none` models Python's `None`, which doubles as the cache's
"absent" sentinel. -/
inductive PyVal where
  | none
  | str (s : String)
  | int (n : Int)
  deriving Repr, DecidableEq

/-- A `cachetools.TTLCache` as configured by the repository: a bounded map
from string keys to values, each entry carrying the absolute expiry time
`insertion time + ttl`.  `entries` is kept in insertion order (oldest
first), matching the library's link order; an entry is live at `now` iff
`now < expiry`. -/
structure TTLCache where
  maxsize : Nat
  ttl : Nat
  entries : List (String × PyVal × Nat)
  deriving Repr, DecidableEq

/-- Models `cache.get(key)` on a `TTLCache`: the stored value if a live entry for
`key` exists, else Python `None` (missing and expired keys are alike). -/
def TTLCache.getVal (c : TTLCache) (key : String) (now : Nat) : PyVal :=
  match c.entries.find? (fun e => e.1 == key) with
  | Option.none => PyVal.none
  | some e => if now < e.2.2 then e.2.1 else PyVal.none

/-- The eviction loop of the library's `Cache.__setitem__` before a new
key is stored at capacity: pop oldest entries until at most `maxsize - 1`
remain. -/
def evictOldest (maxsize : Nat) (l : List (String × PyVal × Nat)) : List (String × PyVal × Nat) :=
  if maxsize ≤ l.length then l.drop (l.length - (maxsize - 1)) else l

/-- Models `cache[key] = value` on a `TTLCache`: the library first purges expired
entries, replaces any existing entry for the key, evicts oldest entries if
a new key would exceed capacity, then appends the fresh entry with expiry
`now + ttl`. -/
def TTLCache.setVal (c : TTLCache) (key : String) (v : PyVal) (now : Nat) : TTLCache :=
  { c with entries := evictOldest c.maxsize ((c.entries.filter (fun e => decide (now < e.2.2))).filter (fun e => ! (e.1 == key))) ++ [(key, v, now + c.ttl)] }

/-- Models `cache.pop(key, None)` on a `TTLCache`: removes the entry for `key`
when it is present and live (an expired entry is not "contained" and is
left for the purge). -/
def TTLCache.delVal (c : TTLCache) (key : String) (now : Nat) : TTLCache :=
  { c with entries := c.entries.filter (fun e => ! (e.1 == key && decide (now < e.2.2))) }

/-- The registry of named pools: the module-level `_pools` dict of
`backend/core/cache.py` (insertion-ordered association list with unique
keys). -/
structure CacheRegistry where
  pools : List (String × TTLCache)
  deriving Repr, DecidableEq

/-- Replace the store registered under `pool`, keeping every other pool. -/
def CacheRegistry.setPool (r : CacheRegistry) (pool : String) (c : TTLCache) : CacheRegistry :=
  { pools := r.pools.map (fun q => if q.1 = pool then (q.1, c) else q) }

/-- Models `register_cache_pool(name, maxsize=128, ttl=60)` from
`backend/core/cache.py`: a silent no-op when the pool already exists,
otherwise inserts a fresh empty `TTLCache` under `name`. -/
def register_cache_pool (r : CacheRegistry) (name : String) (maxsize ttl : Nat) : CacheRegistry :=
  match r.pools.lookup name with
  | Option.none => { pools := r.pools ++ [(name, { maxsize := maxsize, ttl := ttl, entries := [] })] }
  | some _ => r

/-- Models `cache_get(pool, key)` from `backend/core/cache.py`: `_pools.get(pool)`
yields no pool → return `None`; otherwise `cache.get(key)`. -/
def cache_get (r : CacheRegistry) (pool key : String) (now : Nat) : PyVal :=
  match r.pools.lookup pool with
  | Option.none => PyVal.none
  | some c => c.getVal key now

/-- Models `cache_set(pool, key, value)` from `backend/core/cache.py`: no-op when
the pool is missing, else store under the pool's TTL. -/
def cache_set (r : CacheRegistry) (pool key : String) (v : PyVal) (now : Nat) : CacheRegistry :=
  match r.pools.lookup pool with
  | Option.none => r
  | some c => r.setPool pool (c.setVal key v now)

/-- Models `cache_delete(pool, key)` from `backend/core/cache.py`. -/
def cache_delete (r : CacheRegistry) (pool key : String) (now : Nat) : CacheRegistry :=
  match r.pools.lookup pool with
  | Option.none => r
  | some c => r.setPool pool (c.delVal key now)

/-- Models `cache_invalidate(pool, prefix="")` from `backend/core/cache.py`:
missing pool → no-op; empty prefix → `cache.clear()`; otherwise pop every
live key that starts with the prefix (iteration over a `TTLCache` only
yields live keys, so an expired entry stays in the map but is dead). -/
def cache_invalidate (r : CacheRegistry) (pool : String) (pre : String) (now : Nat) : CacheRegistry :=
  match r.pools.lookup pool with
  | Option.none => r
  | some c =>
      if pre = "" then r.setPool pool { c with entries := [] }
      else r.setPool pool
        { c with entries := c.entries.filter (fun e => ! (decide (now < e.2.2) && e.1.startsWith pre)) }

/-- Models `cache_invalidate_multi(pools, prefix="")` from `backend/core/cache.py`. -/
def cache_invalidate_multi (r : CacheRegistry) (ps : List String) (pre : String) (now : Nat) : CacheRegistry :=
  ps.foldl (fun acc p => cache_invalidate acc p pre now) r

/-- The `_CORE_POOLS` table of `backend/core/cache.py`:
name ↦ (maxsize, ttl). -/
def CORE_POOLS : List (String × Nat × Nat) :=
  [("auth", 512, 60), ("org", 256, 120), ("catalog", 256, 120),
   ("plans", 32, 600), ("analytics", 256, 30), ("reports", 128, 60)]

/-- The registry state of `backend/core/cache.py` right after import:
every core pool initialized empty. -/
def corePoolsRegistry : CacheRegistry :=
  { pools := CORE_POOLS.map (fun p => (p.1, { maxsize := p.2.1, ttl := p.2.2, entries := [] })) }

namespace ServicesCache

/-- The fixed module-level pool dict of the legacy facade
`backend/services/cache.py` (same six pools, no dynamic registration). -/
def pools : List (String × TTLCache) :=
  [("auth", ⟨512, 60, []⟩), ("org", ⟨256, 120, []⟩), ("catalog", ⟨256, 120, []⟩),
   ("plans", ⟨32, 600, []⟩), ("analytics", ⟨256, 30, []⟩), ("reports", ⟨128, 60, []⟩)]

/-- Models `cache_get(pool, key)` from `backend/services/cache.py`: it subscripts
the dict (`cache = _pools[pool]`), so an unknown pool name raises
`KeyError`, modelled as `Except.error`. -/
def cache_get (ps : List (String × TTLCache)) (pool key : String) (now : Nat) : Except String PyVal :=
  match ps.lookup pool with
  | Option.none => Except.error ("KeyError: " ++ pool)
  | some c => Except.ok (c.getVal key now)

end ServicesCache

/-- A registered scheduled task, mirroring the `ScheduledTask` dataclass of
`backend/core/scheduler.py`.  Timestamps are integer seconds. -/
structure ScheduledTask where
  name : String
  func_path : String
  interval_seconds : Int
  condition_path : Option String := Option.none
  app_id : String := ""
  agent_id : Option String := Option.none
  last_run : Option Int := Option.none
  enabled : Bool := true
  deriving Repr, DecidableEq

/-- Outcome of awaiting a resolved condition function: it returned a
boolean, or it raised (resolution failure included, since
`_resolve_func` is called inside the same `try`). -/
inductive CondResult where
  | ret (b : Bool)
  | exc
  deriving Repr, DecidableEq

/-- Outcome of awaiting a task's work function: normal return or a raised
exception. -/
inductive RunOutcome where
  | ok
  | exc
  deriving Repr, DecidableEq

/-- The dynamic environment the scheduler dispatches into: what the
condition function at a dotted path and the work function at a dotted path
do when invoked at a given instant. -/
structure SchedulerEnv where
  cond : String → Int → CondResult
  work : String → Int → RunOutcome

/-- The `# Run the task` block of `TaskScheduler.start`
(`backend/core/scheduler.py` lines 71-78): the work function is invoked;
on both normal return and exception `last_run` is set to `now` (the
`except` clause catches everything), and the invocation `(name, now)` is
recorded. -/
def runWork (env : SchedulerEnv) (now : Int) (t : ScheduledTask) : ScheduledTask × List (String × Int) :=
  match env.work t.func_path now with
  | RunOutcome.ok => ({ t with last_run := some now }, [(t.name, now)])
  | RunOutcome.exc => ({ t with last_run := some now }, [(t.name, now)])

/-- The condition-check block of `TaskScheduler.start` (lines 58-69)
followed by the run block: a condition returning `False` or raising skips
the work function but still sets `last_run := now`. -/
def checkCondAndRun (env : SchedulerEnv) (now : Int) (t : ScheduledTask) : ScheduledTask × List (String × Int) :=
  match t.condition_path with
  | some cp =>
      match env.cond cp now with
      | CondResult.ret true => runWork env now t
      | CondResult.ret false => ({ t with last_run := some now }, [])
      | CondResult.exc => ({ t with last_run := some now }, [])
  | Option.none => runWork env now t

/-- One iteration of the `for task in self.tasks` body of
`TaskScheduler.start` for a single task: disabled tasks are skipped
untouched; a task with `last_run` set is skipped untouched while
`now - last_run < interval_seconds`; otherwise the condition gate and work
function run.  Returns the updated task and the work invocations (task
name, instant) performed. -/
def tickTask (env : SchedulerEnv) (now : Int) (t : ScheduledTask) : ScheduledTask × List (String × Int) :=
  if t.enabled = false then (t, [])
  else
    match t.last_run with
    | some lr =>
        if now - lr < t.interval_seconds then (t, [])
        else checkCondAndRun env now t
    | Option.none => checkCondAndRun env now t

/-- One full tick of the scheduler loop: `now` is captured once, then every
task in the list is processed in registration order with that same `now`. -/
def tick (env : SchedulerEnv) (now : Int) : List ScheduledTask → List ScheduledTask × List (String × Int)
  | [] => ([], [])
  | t :: ts =>
      ((tickTask env now t).1 :: (tick env now ts).1,
       (tickTask env now t).2 ++ (tick env now ts).2)

/-- The scheduler loop of `TaskScheduler.start`, unrolled over the
successive clock readings `times` (one `datetime.now` per `while` pass;
the `asyncio.sleep(10)` between passes only determines what those readings
are). -/
def schedRun (env : SchedulerEnv) : List Int → List ScheduledTask → List ScheduledTask × List (String × Int)
  | [], ts => (ts, [])
  | n :: ns, ts =>
      ((schedRun env ns (tick env n ts).1).1,
       (tick env n ts).2 ++ (schedRun env ns (tick env n ts).1).2)

/-- The trajectory of one task alone through the same clock readings: the
loop body touches each task independently, so the whole run restricted to
one task is exactly this fold. -/
def runTask (env : SchedulerEnv) : List Int → ScheduledTask → ScheduledTask × List (String × Int)
  | [], t => (t, [])
  | n :: ns, t =>
      ((runTask env ns (tickTask env n t).1).1,
       (tickTask env n t).2 ++ (runTask env ns (tickTask env n t).1).2)

/-- The due-check of `TaskScheduler.start` as a boolean: a task with no
`last_run` is due at any instant; otherwise it is due iff
`now - last_run < interval_seconds` fails. -/
def TaskDue (now : Int) (t : ScheduledTask) : Bool :=
  match t.last_run with
  | Option.none => true
  | some lr => ! decide (now - lr < t.interval_seconds)

/-- A row of the `bot_task_log` table as assembled by `TaskLogger.log`
(`backend/core/task_logger.py`): the seven always-present columns plus the
conditionally-included `app_id`. -/
structure LogRow where
  org_id : String
  bot_id : String
  task_type : String
  task_detail : List (String × PyVal)
  triggered_by : Option String
  execution_time_ms : Option Int
  tokens_used : Option Int
  app_id : Option String
  deriving Repr, DecidableEq

/-- Modelled from the spec: the underlying store behind
`get_supabase_admin()` (constructed in `core/database.py`, which is not in
the source tree; the client itself is the external Supabase library).
Per the spec, `insert(row).execute()` either appends exactly one row and
returns it with a server-assigned identifier, or fails, raising to the
caller.  `failing` selects which of the two the next write does. -/
structure Database where
  rows : List (String × LogRow)
  nextId : Nat
  failing : Bool
  deriving Repr, DecidableEq

/-- Modelled from the spec: one `table("bot_task_log").insert(...).execute()`
call — appends the row with a fresh id and returns that id, or raises. -/
def Database.insert (db : Database) (row : LogRow) : Except String (Database × String) :=
  if db.failing then Except.error "insert failed"
  else
    let id := toString db.nextId
    Except.ok ({ db with rows := db.rows ++ [(id, row)], nextId := db.nextId + 1 }, id)

namespace TaskLogger

/-- Models `TaskLogger.log` from `backend/core/task_logger.py`: builds `log_data`
(with `task_detail or {}`, and `app_id` included only when truthy, i.e.
neither `None` nor the empty string), performs exactly one insert, and
returns `result.data[0]["id"]`.  There is no `try`/`except`: an insert
failure propagates to the caller. -/
def log (db : Database) (org_id bot_id task_type : String)
    (task_detail : Option (List (String × PyVal)))
    (app_id triggered_by : Option String)
    (execution_time_ms tokens_used : Option Int) : Except String (Database × String) :=
  let log_data : LogRow :=
    { org_id := org_id
      bot_id := bot_id
      task_type := task_type
      task_detail := task_detail.getD []
      triggered_by := triggered_by
      execution_time_ms := execution_time_ms
      tokens_used := tokens_used
      app_id := match app_id with
        | some s => if s = "" then Option.none else some s
        | Option.none => Option.none }
  match db.insert log_data with
  | Except.error e => Except.error e
  | Except.ok (db2, id) => Except.ok (db2, id)

end TaskLogger


/-- An environment whose conditions all pass and whose work functions all
return normally. -/
def okEnv : SchedulerEnv :=
  ⟨fun _ _ => CondResult.ret true, fun _ _ => RunOutcome.ok⟩

/-- An environment whose condition functions all return `False`. -/
def falseCondEnv : SchedulerEnv :=
  ⟨fun _ _ => CondResult.ret false, fun _ _ => RunOutcome.ok⟩

/-- An environment whose work functions all raise. -/
def excWorkEnv : SchedulerEnv :=
  ⟨fun _ _ => CondResult.ret true, fun _ _ => RunOutcome.exc⟩

/-- A fresh 60-second task with no gating condition. -/
def notifyTask : ScheduledTask :=
  { name := "notification-dispatch", func_path := "core.notifications:process_pending",
    interval_seconds := 60, condition_path := Option.none, app_id := "core",
    agent_id := Option.none, last_run := Option.none, enabled := true }

/-- A fresh 300-second task gated by a condition function. -/
def reportTask : ScheduledTask :=
  { name := "report-generation",
    func_path := "apps.workforce_accelerator.agents.report_agent.tasks:run_reports",
    interval_seconds := 300,
    condition_path := some "apps.workforce_accelerator.agents.report_agent.tasks:reports_due",
    app_id := "workforce-accelerator", agent_id := some "report-agent",
    last_run := Option.none, enabled := true }

/-- The state after the condition/run block: `last_run` is always set to the
tick's `now`, whatever the condition and work functions did. -/
theorem checkCondAndRun_fst (env : SchedulerEnv) (now : Int) (t : ScheduledTask) :
    (checkCondAndRun env now t).1 = { t with last_run := some now } := by
  unfold checkCondAndRun runWork
  split
  · split
    · split <;> rfl
    · rfl
    · rfl
  · split <;> rfl

/-- The condition/run block performs either no work invocation or exactly
the one `(t.name, now)`. -/
theorem checkCondAndRun_snd (env : SchedulerEnv) (now : Int) (t : ScheduledTask) :
    (checkCondAndRun env now t).2 = [] ∨ (checkCondAndRun env now t).2 = [(t.name, now)] := by
  unfold checkCondAndRun runWork
  split
  · split
    · split <;> simp
    · simp
    · simp
  · split <;> simp

/-- A disabled or not-yet-due task is left untouched and performs nothing. -/
theorem tickTask_skip (env : SchedulerEnv) (now : Int) (t : ScheduledTask)
    (h : ¬(t.enabled = true ∧ TaskDue now t = true)) : tickTask env now t = (t, []) := by
  obtain ⟨nm, fp, iv, cpth, aid, agid, lr, en⟩ := t
  cases en with
  | false => rfl
  | true =>
    cases lr with
    | none => exact absurd ⟨rfl, rfl⟩ h
    | some l =>
      by_cases hlt : now - l < iv
      · simp [tickTask, hlt]
      · exact absurd ⟨rfl, by simp [TaskDue, hlt]⟩ h

/-- An enabled, due task goes through the condition gate and run block. -/
theorem tickTask_due (env : SchedulerEnv) (now : Int) (t : ScheduledTask)
    (he : t.enabled = true) (hd : TaskDue now t = true) :
    tickTask env now t = checkCondAndRun env now t := by
  obtain ⟨nm, fp, iv, cpth, aid, agid, lr, en⟩ := t
  subst he
  cases lr with
  | none => rfl
  | some l =>
    simp only [TaskDue] at hd
    have : ¬ now - l < iv := by simpa using hd
    simp [tickTask, this]

/-- The due-check against a recorded `last_run`: due means the interval has
elapsed. -/
theorem TaskDue_some (now : Int) (t : ScheduledTask) (lr : Int)
    (hl : t.last_run = some lr) (h : TaskDue now t = true) :
    lr + t.interval_seconds ≤ now := by
  simp only [TaskDue, hl] at h
  simp at h
  omega

/-- `tickTask` never changes a task's identity fields. -/
theorem tickTask_fields (env : SchedulerEnv) (now : Int) (t : ScheduledTask) :
    (tickTask env now t).1.name = t.name ∧
    (tickTask env now t).1.interval_seconds = t.interval_seconds := by
  by_cases h : t.enabled = true ∧ TaskDue now t = true
  · rw [tickTask_due env now t h.1 h.2, checkCondAndRun_fst]
    exact ⟨rfl, rfl⟩
  · rw [tickTask_skip env now t h]
    exact ⟨rfl, rfl⟩

/-- Every invocation a single tick of one task records is that task's name
at that tick's instant. -/
theorem tickTask_snd_mem (env : SchedulerEnv) (now : Int) (t : ScheduledTask) :
    ∀ p ∈ (tickTask env now t).2, p = (t.name, now) := by
  by_cases h : t.enabled = true ∧ TaskDue now t = true
  · rw [tickTask_due env now t h.1 h.2]
    rcases checkCondAndRun_snd env now t with h2 | h2 <;> rw [h2] <;> simp
  · rw [tickTask_skip env now t h]
    simp

/-- Core non-overlap invariant, per task: along any sequence of clock
readings, every recorded invocation lies at least one interval after the
task's initial `last_run`, and consecutive invocations are at least one
interval apart. -/
theorem runTask_spacing (env : SchedulerEnv) (times : List Int) :
    ∀ t : ScheduledTask, 0 ≤ t.interval_seconds →
      (∀ lr, t.last_run = some lr →
        ∀ p ∈ (runTask env times t).2, lr + t.interval_seconds ≤ p.2)
      ∧ List.Chain' (fun a b => a.2 + t.interval_seconds ≤ b.2) (runTask env times t).2 := by
  induction times with
  | nil =>
    intro t _
    constructor
    · intro lr _ p hp
      simp [runTask] at hp
    · simp [runTask]
  | cons n ns ih =>
    intro t hN
    by_cases hd : t.enabled = true ∧ TaskDue n t = true
    · have heq := tickTask_due env n t hd.1 hd.2
      have hfst : (tickTask env n t).1 = { t with last_run := some n } := by
        rw [heq, checkCondAndRun_fst]
      have ihup := ih { t with last_run := some n } (by simpa using hN)
      have hA : ∀ p ∈ (runTask env ns { t with last_run := some n }).2,
          n + t.interval_seconds ≤ p.2 := by
        intro p hp
        have := ihup.1 n rfl p hp
        simpa using this
      have hsnd : (tickTask env n t).2 = [] ∨ (tickTask env n t).2 = [(t.name, n)] := by
        rw [heq]; exact checkCondAndRun_snd env n t
      have hrw : (runTask env (n :: ns) t).2
          = (tickTask env n t).2 ++ (runTask env ns { t with last_run := some n }).2 := by
        simp [runTask, hfst]
      have hdue : ∀ lr, t.last_run = some lr → lr + t.interval_seconds ≤ n :=
        fun lr hlr => TaskDue_some n t lr hlr hd.2
      rcases hsnd with h2 | h2
      · constructor
        · intro lr hlr p hp
          rw [hrw, h2, List.nil_append] at hp
          have h1 := hdue lr hlr
          have h3 := hA p hp
          omega
        · rw [hrw, h2, List.nil_append]
          have := ihup.2
          simpa using this
      · constructor
        · intro lr hlr p hp
          rw [hrw, h2] at hp
          rcases List.mem_append.1 hp with hp1 | hp2
          · rcases List.mem_singleton.1 hp1 with rfl
            exact hdue lr hlr
          · have h1 := hdue lr hlr
            have h3 := hA p hp2
            omega
        · rw [hrw, h2, List.singleton_append]
          refine List.chain'_cons'.mpr ⟨?_, by simpa using ihup.2⟩
          intro y hy
          have hym := List.mem_of_mem_head? hy
          have := hA y hym
          simpa using this
    · have hskip := tickTask_skip env n t hd
      have hrw : (runTask env (n :: ns) t).2 = (runTask env ns t).2 := by
        simp [runTask, hskip]
      constructor
      · intro lr hlr p hp
        rw [hrw] at hp
        exact (ih t hN).1 lr hlr p hp
      · rw [hrw]
        exact (ih t hN).2

/-- One tick maps the loop body over the task list in registration order. -/
theorem tick_fst (env : SchedulerEnv) (now : Int) (ts : List ScheduledTask) :
    (tick env now ts).1 = ts.map (fun u => (tickTask env now u).1) := by
  induction ts with
  | nil => rfl
  | cons u us ih => simp [tick, ih]

/-- Task names survive a tick unchanged. -/
theorem tick_fst_names (env : SchedulerEnv) (now : Int) (ts : List ScheduledTask) :
    (tick env now ts).1.map ScheduledTask.name = ts.map ScheduledTask.name := by
  rw [tick_fst, List.map_map]
  exact List.map_congr_left (fun u _ => (tickTask_fields env now u).1)

/-- Every invocation recorded by a tick belongs to some task of the list,
stamped with the tick's single instant. -/
theorem tick_snd_mem (env : SchedulerEnv) (now : Int) (ts : List ScheduledTask) :
    ∀ p ∈ (tick env now ts).2, ∃ u ∈ ts, p = (u.name, now) := by
  induction ts with
  | nil => simp [tick]
  | cons u us ih =>
    intro p hp
    simp only [tick, List.mem_append] at hp
    rcases hp with hp | hp
    · exact ⟨u, List.mem_cons_self u us, tickTask_snd_mem env now u p hp⟩
    · obtain ⟨w, hw, hpw⟩ := ih p hp
      exact ⟨w, List.mem_cons_of_mem u hw, hpw⟩

/-- With distinct task names, the invocations a tick records for one task
are exactly what ticking that task alone records. -/
theorem tick_filter (env : SchedulerEnv) (now : Int) (ts : List ScheduledTask)
    (hnd : (ts.map ScheduledTask.name).Nodup) (t : ScheduledTask) (ht : t ∈ ts) :
    (tick env now ts).2.filter (fun p => p.1 == t.name) = (tickTask env now t).2 := by
  induction ts with
  | nil => cases ht
  | cons u us ih =>
    simp only [List.map_cons, List.nodup_cons] at hnd
    rcases List.mem_cons.1 ht with rfl | htu
    · have h1 : (tickTask env now t).2.filter (fun p => p.1 == t.name) = (tickTask env now t).2 := by
        refine List.filter_eq_self.mpr ?_
        intro p hp
        rw [tickTask_snd_mem env now t p hp]
        simp
      have h2 : (tick env now us).2.filter (fun p => p.1 == t.name) = [] := by
        refine List.filter_eq_nil_iff.mpr ?_
        intro p hp
        obtain ⟨w, hw, rfl⟩ := tick_snd_mem env now us p hp
        have : w.name ≠ t.name := fun hcontra => hnd.1 (hcontra ▸ List.mem_map_of_mem ScheduledTask.name hw)
        simpa using this
      simp [tick, List.filter_append, h1, h2]
    · have h1 : (tickTask env now u).2.filter (fun p => p.1 == t.name) = [] := by
        refine List.filter_eq_nil_iff.mpr ?_
        intro p hp
        rw [tickTask_snd_mem env now u p hp]
        have : u.name ≠ t.name := fun hcontra => hnd.1 (hcontra ▸ List.mem_map_of_mem ScheduledTask.name htu)
        simpa using this
      simp [tick, List.filter_append, h1, ih hnd.2 htu]

/-- With distinct task names, the whole scheduler run records for one task
exactly the invocations of that task's own trajectory. -/
theorem schedRun_filter (env : SchedulerEnv) (times : List Int) :
    ∀ ts : List ScheduledTask, (ts.map ScheduledTask.name).Nodup →
      ∀ t ∈ ts, (schedRun env times ts).2.filter (fun p => p.1 == t.name)
        = (runTask env times t).2 := by
  induction times with
  | nil => intro ts _ t _; simp [schedRun, runTask]
  | cons n ns ih =>
    intro ts hnd t ht
    have hnd2 : ((tick env n ts).1.map ScheduledTask.name).Nodup := by
      rw [tick_fst_names]; exact hnd
    have hmem : (tickTask env n t).1 ∈ (tick env n ts).1 := by
      rw [tick_fst]; exact List.mem_map_of_mem (fun u => (tickTask env n u).1) ht
    have hname : (tickTask env n t).1.name = t.name := (tickTask_fields env n t).1
    have hrec := ih (tick env n ts).1 hnd2 (tickTask env n t).1 hmem
    rw [hname] at hrec
    simp only [schedRun, runTask, List.filter_append]
    rw [tick_filter env n ts hnd t ht, hrec]

/-- A tick of a concatenated task list is the concatenation of the ticks. -/
theorem tick_append (env : SchedulerEnv) (now : Int) (l1 l2 : List ScheduledTask) :
    tick env now (l1 ++ l2)
      = ((tick env now l1).1 ++ (tick env now l2).1,
         (tick env now l1).2 ++ (tick env now l2).2) := by
  induction l1 with
  | nil => simp [tick]
  | cons u us ih => simp [tick, ih]

/-- The final task states of a run over a concatenated list factor. -/
theorem schedRun_fst_append (env : SchedulerEnv) (times : List Int) :
    ∀ l1 l2 : List ScheduledTask,
      (schedRun env times (l1 ++ l2)).1
        = (schedRun env times l1).1 ++ (schedRun env times l2).1 := by
  induction times with
  | nil => intro l1 l2; simp [schedRun]
  | cons n ns ih =>
    intro l1 l2
    simp only [schedRun, tick_append]
    exact ih (tick env n l1).1 (tick env n l2).1

/-- A run never adds or removes tasks. -/
theorem schedRun_fst_length (env : SchedulerEnv) (times : List Int) :
    ∀ ts : List ScheduledTask, (schedRun env times ts).1.length = ts.length := by
  induction times with
  | nil => intro ts; rfl
  | cons n ns ih =>
    intro ts
    simp only [schedRun]
    rw [ih, tick_fst, List.length_map]

/-- C1: for every registered scheduled task with `interval_seconds = N`, the
scheduler never starts a new invocation of the task's work function while
fewer than `N` seconds have elapsed since the task's last recorded run
attempt: across an arbitrary run, consecutive recorded invocations of the
task are at least `N` apart (so at most one invocation per `N`-second
window), every invocation is at least `N` after the initial `last_run`,
and a task with `last_run = None` is immediately due (it is invoked on the
very first tick it is enabled with no gating condition). -/
theorem C1_scheduler_non_overlap (env : SchedulerEnv) (times : List Int)
    (ts : List ScheduledTask) (t : ScheduledTask)
    (hN : 0 ≤ t.interval_seconds)
    (hnd : (ts.map ScheduledTask.name).Nodup) (ht : t ∈ ts) :
    List.Chain' (fun a b => a.2 + t.interval_seconds ≤ b.2)
        ((schedRun env times ts).2.filter (fun p => p.1 == t.name))
    ∧ (∀ lr, t.last_run = some lr →
        ∀ p ∈ (schedRun env times ts).2.filter (fun p => p.1 == t.name),
          lr + t.interval_seconds ≤ p.2)
    ∧ (∀ now, t.last_run = Option.none → t.enabled = true →
        t.condition_path = Option.none → (tickTask env now t).2 = [(t.name, now)]) := by
  rw [schedRun_filter env times ts hnd t ht]
  refine ⟨(runTask_spacing env times t hN).2, (runTask_spacing env times t hN).1, ?_⟩
  intro now hlr hen hcp
  have hdue : TaskDue now t = true := by simp [TaskDue, hlr]
  rw [tickTask_due env now t hen hdue]
  unfold checkCondAndRun runWork
  rw [hcp]
  rcases hw : env.work t.func_path now <;> simp [hw]

theorem C1_witness :
    (0 ≤ notifyTask.interval_seconds
      ∧ ([notifyTask].map ScheduledTask.name).Nodup ∧ notifyTask ∈ [notifyTask])
    ∧ (List.Chain' (fun a b => a.2 + notifyTask.interval_seconds ≤ b.2)
        ((schedRun okEnv [0, 10, 20] [notifyTask]).2.filter (fun p => p.1 == notifyTask.name))
      ∧ (∀ lr, notifyTask.last_run = some lr →
          ∀ p ∈ (schedRun okEnv [0, 10, 20] [notifyTask]).2.filter (fun p => p.1 == notifyTask.name),
            lr + notifyTask.interval_seconds ≤ p.2)
      ∧ (∀ now, notifyTask.last_run = Option.none → notifyTask.enabled = true →
          notifyTask.condition_path = Option.none →
          (tickTask okEnv now notifyTask).2 = [(notifyTask.name, now)])) :=
  ⟨⟨by decide, by decide, by decide⟩,
   C1_scheduler_non_overlap okEnv [0, 10, 20] [notifyTask] notifyTask
     (by decide) (by decide) (by decide)⟩

/-- C4: a due, enabled task whose condition function returns `False` or
raises is not run on this tick, still has `last_run` stamped with the
tick's instant, and the remaining tasks of the tick are processed exactly
as they would be without it. -/
theorem C4_condition_failure (env : SchedulerEnv) (now : Int) (t : ScheduledTask)
    (cp : String) (hen : t.enabled = true) (hdue : TaskDue now t = true)
    (hcp : t.condition_path = some cp)
    (hfail : env.cond cp now = CondResult.ret false ∨ env.cond cp now = CondResult.exc) :
    tickTask env now t = ({ t with last_run := some now }, [])
    ∧ ∀ rest, tick env now (t :: rest)
        = ({ t with last_run := some now } :: (tick env now rest).1, (tick env now rest).2) := by
  have h1 : tickTask env now t = ({ t with last_run := some now }, []) := by
    rw [tickTask_due env now t hen hdue]
    unfold checkCondAndRun
    rw [hcp]
    rcases hfail with hf | hf <;> simp [hf]
  refine ⟨h1, ?_⟩
  intro rest
  simp [tick, h1]

theorem C4_witness :
    (reportTask.enabled = true ∧ TaskDue 0 reportTask = true
      ∧ reportTask.condition_path
          = some "apps.workforce_accelerator.agents.report_agent.tasks:reports_due"
      ∧ (falseCondEnv.cond "apps.workforce_accelerator.agents.report_agent.tasks:reports_due" 0
            = CondResult.ret false
         ∨ falseCondEnv.cond "apps.workforce_accelerator.agents.report_agent.tasks:reports_due" 0
            = CondResult.exc))
    ∧ (tickTask falseCondEnv 0 reportTask = ({ reportTask with last_run := some 0 }, [])
      ∧ ∀ rest, tick falseCondEnv 0 (reportTask :: rest)
          = ({ reportTask with last_run := some 0 } :: (tick falseCondEnv 0 rest).1,
             (tick falseCondEnv 0 rest).2)) :=
  ⟨⟨by decide, by decide, by decide, Or.inl rfl⟩,
   C4_condition_failure falseCondEnv 0 reportTask
     "apps.workforce_accelerator.agents.report_agent.tasks:reports_due"
     (by decide) (by decide) (by decide) (Or.inl rfl)⟩

/-- C5: a due, eligible task whose work function raises has the exception
caught at the scheduler level, its `last_run` is still stamped with the
tick's instant (no early retry), and every task registered after it is
unaffected: the later tasks' final states equal those of a run without
the failing task, and (under distinct names) their invocations equal their
own isolated trajectories across all ticks. -/
theorem C5_failure_isolation (env : SchedulerEnv) (now : Int) (t : ScheduledTask)
    (hen : t.enabled = true) (hdue : TaskDue now t = true)
    (hcond : t.condition_path = Option.none
      ∨ ∃ cp, t.condition_path = some cp ∧ env.cond cp now = CondResult.ret true)
    (hexc : env.work t.func_path now = RunOutcome.exc) :
    tickTask env now t = ({ t with last_run := some now }, [(t.name, now)])
    ∧ (∀ times pre post,
        ((schedRun env times (pre ++ t :: post)).1).drop (pre.length + 1)
          = (schedRun env times post).1)
    ∧ (∀ times pre post u,
        (((pre ++ t :: post).map ScheduledTask.name).Nodup) → u ∈ post →
        (schedRun env times (pre ++ t :: post)).2.filter (fun p => p.1 == u.name)
          = (runTask env times u).2) := by
  refine ⟨?_, ?_, ?_⟩
  · rw [tickTask_due env now t hen hdue]
    unfold checkCondAndRun runWork
    rcases hcond with hc | ⟨cp, hc, hcc⟩
    · simp [hc, hexc]
    · simp [hc, hcc, hexc]
  · intro times pre post
    have hsplit : pre ++ t :: post = (pre ++ [t]) ++ post := by simp
    rw [hsplit, schedRun_fst_append]
    have hlen : ((schedRun env times (pre ++ [t])).1).length = pre.length + 1 := by
      rw [schedRun_fst_length]; simp
    rw [← hlen, List.drop_left]
  · intro times pre post u hnd hu
    exact schedRun_filter env times (pre ++ t :: post) hnd u
      (List.mem_append_right pre (List.mem_cons_of_mem t hu))

theorem C5_witness :
    (notifyTask.enabled = true ∧ TaskDue 0 notifyTask = true
      ∧ (notifyTask.condition_path = Option.none
         ∨ ∃ cp, notifyTask.condition_path = some cp
             ∧ excWorkEnv.cond cp 0 = CondResult.ret true)
      ∧ excWorkEnv.work notifyTask.func_path 0 = RunOutcome.exc)
    ∧ (tickTask excWorkEnv 0 notifyTask
        = ({ notifyTask with last_run := some 0 }, [(notifyTask.name, 0)])
      ∧ (∀ times pre post,
          ((schedRun excWorkEnv times (pre ++ notifyTask :: post)).1).drop (pre.length + 1)
            = (schedRun excWorkEnv times post).1)
      ∧ (∀ times pre post u,
          (((pre ++ notifyTask :: post).map ScheduledTask.name).Nodup) → u ∈ post →
          (schedRun excWorkEnv times (pre ++ notifyTask :: post)).2.filter
              (fun p => p.1 == u.name)
            = (runTask excWorkEnv times u).2)) :=
  ⟨⟨by decide, by decide, Or.inl (by decide), rfl⟩,
   C5_failure_isolation excWorkEnv 0 notifyTask (by decide) (by decide)
     (Or.inl (by decide)) rfl⟩

/-- C9: within a single scheduler tick one timestamp `now` is captured
before the task list is iterated; every task of the tick is processed
against that same `now`, every invocation of the tick is stamped with it,
and every task that is due and enabled (so it runs, fails or is
condition-skipped) ends the tick with `last_run = now` — in particular all
tasks touched in one tick record identical `last_run` values, independent
of how long their work took. -/
theorem C9_single_tick_timestamp (env : SchedulerEnv) (now : Int)
    (ts : List ScheduledTask) :
    (tick env now ts).1 = ts.map (fun u => (tickTask env now u).1)
    ∧ (∀ p ∈ (tick env now ts).2, p.2 = now)
    ∧ (∀ u : ScheduledTask, u.enabled = true → TaskDue now u = true →
        (tickTask env now u).1.last_run = some now)
    ∧ (∀ u : ScheduledTask,
        ((tickTask env now u).1 = u ∧ (tickTask env now u).2 = [])
        ∨ (tickTask env now u).1.last_run = some now) := by
  refine ⟨tick_fst env now ts, ?_, ?_, ?_⟩
  · intro p hp
    obtain ⟨u, _, rfl⟩ := tick_snd_mem env now ts p hp
    rfl
  · intro u hen hdue
    rw [tickTask_due env now u hen hdue, checkCondAndRun_fst]
  · intro u
    by_cases h : u.enabled = true ∧ TaskDue now u = true
    · right
      rw [tickTask_due env now u h.1 h.2, checkCondAndRun_fst]
    · left
      rw [tickTask_skip env now u h]
      exact ⟨rfl, rfl⟩

theorem C9_witness :
    (tick okEnv 5 [notifyTask, reportTask]).1
        = [notifyTask, reportTask].map (fun u => (tickTask okEnv 5 u).1)
    ∧ (∀ p ∈ (tick okEnv 5 [notifyTask, reportTask]).2, p.2 = 5)
    ∧ (∀ u : ScheduledTask, u.enabled = true → TaskDue 5 u = true →
        (tickTask okEnv 5 u).1.last_run = some 5)
    ∧ (∀ u : ScheduledTask,
        ((tickTask okEnv 5 u).1 = u ∧ (tickTask okEnv 5 u).2 = [])
        ∨ (tickTask okEnv 5 u).1.last_run = some 5) :=
  C9_single_tick_timestamp okEnv 5 [notifyTask, reportTask]

/-- Replacing the store under a registered name is observed by a lookup of
that name. -/
theorem lookup_setPool_self (l : List (String × TTLCache)) (p : String) (c : TTLCache)
    (h : (l.lookup p).isSome = true) :
    (l.map (fun q => if q.1 = p then (q.1, c) else q)).lookup p = some c := by
  induction l with
  | nil => simp [List.lookup] at h
  | cons e es ih =>
    obtain ⟨k, v⟩ := e
    by_cases hk : k = p
    · subst hk
      have hif : (if (k, v).1 = k then ((k, v).1, c) else (k, v)) = (k, c) := if_pos rfl
      rw [List.map_cons, hif]
      simp [List.lookup]
    · have hif : (if (k, v).1 = p then ((k, v).1, c) else (k, v)) = (k, v) := if_neg hk
      rw [List.map_cons, hif]
      have hne : (p == k) = false := by
        simpa using fun hc => hk hc.symm
      simp only [List.lookup, hne] at h ⊢
      exact ih h

/-- Replacing the store under one name leaves lookups of other names
unchanged. -/
theorem lookup_setPool_ne (l : List (String × TTLCache)) (p q : String) (c : TTLCache)
    (h : q ≠ p) :
    (l.map (fun e => if e.1 = p then (e.1, c) else e)).lookup q = l.lookup q := by
  induction l with
  | nil => simp
  | cons e es ih =>
    obtain ⟨k, v⟩ := e
    by_cases hk : k = p
    · subst hk
      have hif : (if (k, v).1 = k then ((k, v).1, c) else (k, v)) = (k, c) := if_pos rfl
      rw [List.map_cons, hif]
      have hne : (q == k) = false := by simpa using h
      simp only [List.lookup, hne]
      exact ih
    · have hif : (if (k, v).1 = p then ((k, v).1, c) else (k, v)) = (k, v) := if_neg hk
      rw [List.map_cons, hif]
      by_cases hq : q = k
      · subst hq
        simp [List.lookup]
      · have hne : (q == k) = false := by simpa using hq
        simp only [List.lookup, hne]
        exact ih

/-- A dict insertion of a new key is observed by a lookup of that key. -/
theorem lookup_append_single (l : List (String × TTLCache)) (p : String) (c : TTLCache)
    (h : l.lookup p = Option.none) :
    (l ++ [(p, c)]).lookup p = some c := by
  induction l with
  | nil => simp [List.lookup]
  | cons e es ih =>
    obtain ⟨k, v⟩ := e
    by_cases hq : p = k
    · subst hq
      simp [List.lookup] at h
    · have hne : (p == k) = false := by simpa using hq
      simp only [List.lookup, hne] at h
      simp only [List.cons_append, List.lookup, hne]
      exact ih h

/-- Filtering away only elements that cannot match leaves the first match
unchanged. -/
theorem find?_filter_of_imp {α : Type} (l : List α) (p q : α → Bool)
    (h : ∀ a ∈ l, q a = true → p a = true) :
    (l.filter p).find? q = l.find? q := by
  induction l with
  | nil => rfl
  | cons a as ih =>
    have ihs := ih (fun b hb hqb => h b (List.mem_cons_of_mem a hb) hqb)
    by_cases hq : q a = true
    · have hp := h a (List.mem_cons_self a as) hq
      simp [List.filter_cons, hp, List.find?_cons, hq]
    · have hq' : q a = false := by simpa using hq
      by_cases hp : p a = true
      · simp [List.filter_cons, hp, List.find?_cons, hq', ihs]
      · have hp' : p a = false := by simpa using hp
        simp [List.filter_cons, hp', List.find?_cons, hq', ihs]

/-- If no element of the front list matches, `find?` over a concatenation
searches the back list. -/
theorem find?_append_of_none {α : Type} (l1 l2 : List α) (q : α → Bool)
    (h : l1.find? q = Option.none) :
    (l1 ++ l2).find? q = l2.find? q := by
  induction l1 with
  | nil => rfl
  | cons a as ih =>
    by_cases hq : q a = true
    · simp [List.find?_cons, hq] at h
    · have hq' : q a = false := by simpa using hq
      simp only [List.find?_cons, hq'] at h
      simp [List.cons_append, List.find?_cons, hq', ih h]

/-- After prefix invalidation, a read of any key that starts with the
prefix misses. -/
theorem getVal_invalidated_hit (c : TTLCache) (pre key : String) (now : Nat)
    (h : key.startsWith pre = true) :
    TTLCache.getVal { c with entries := c.entries.filter (fun e => ! (decide (now < e.2.2) && e.1.startsWith pre)) } key now = PyVal.none := by
  show (match List.find? (fun e => e.1 == key) (List.filter (fun e => ! (decide (now < e.2.2) && e.1.startsWith pre)) c.entries) with
    | Option.none => PyVal.none
    | some e => if now < e.2.2 then e.2.1 else PyVal.none) = PyVal.none
  rcases hf : List.find? (fun e => e.1 == key)
      (List.filter (fun e => ! (decide (now < e.2.2) && e.1.startsWith pre)) c.entries)
    with _ | e
  · rw [hf]
  · have hqe := List.find?_some hf
    have hmem := List.mem_of_find?_eq_some hf
    have hpred := List.of_mem_filter hmem
    have heq : e.1 = key := by simpa using hqe
    rw [heq, h] at hpred
    have hnot : ¬ now < e.2.2 := by simpa using hpred
    rw [hf]
    exact if_neg hnot

/-- Prefix invalidation does not change the read of any key that does not
start with the prefix. -/
theorem getVal_invalidated_miss (c : TTLCache) (pre key : String) (now : Nat)
    (h : key.startsWith pre = false) :
    TTLCache.getVal { c with entries := c.entries.filter (fun e => ! (decide (now < e.2.2) && e.1.startsWith pre)) } key now = TTLCache.getVal c key now := by
  have hfind : List.find? (fun e => e.1 == key)
      (List.filter (fun e => ! (decide (now < e.2.2) && e.1.startsWith pre)) c.entries)
      = List.find? (fun e => e.1 == key) c.entries := by
    apply find?_filter_of_imp
    intro e _ hqe
    have heq : e.1 = key := by simpa using hqe
    rw [heq, h]
    simp
  show (match List.find? (fun e => e.1 == key) (List.filter (fun e => ! (decide (now < e.2.2) && e.1.startsWith pre)) c.entries) with
    | Option.none => PyVal.none
    | some e => if now < e.2.2 then e.2.1 else PyVal.none) = TTLCache.getVal c key now
  rw [hfind]
  rfl

/-- C2: for every registry state, pool and set of stored keys,
`cache_invalidate(pool, prefix)` with a non-empty prefix removes exactly
the keys whose string form starts with the prefix — reads of such keys
miss afterwards, reads of all other keys are unchanged, and other pools
are untouched — while an empty prefix clears the whole pool. -/
theorem C2_prefix_invalidation (r : CacheRegistry) (p pre : String) (now : Nat)
    (hpre : pre ≠ "") :
    (∀ key, key.startsWith pre = true →
        cache_get (cache_invalidate r p pre now) p key now = PyVal.none)
    ∧ (∀ key, key.startsWith pre = false →
        cache_get (cache_invalidate r p pre now) p key now = cache_get r p key now)
    ∧ (∀ key, cache_get (cache_invalidate r p "" now) p key now = PyVal.none)
    ∧ (∀ q, q ≠ p →
        (cache_invalidate r p pre now).pools.lookup q = r.pools.lookup q) := by
  rcases hp : r.pools.lookup p with _ | c
  · refine ⟨?_, ?_, ?_, ?_⟩
    · intro key _
      simp [cache_invalidate, cache_get, hp]
    · intro key _
      simp [cache_invalidate, hp]
    · intro key
      simp [cache_invalidate, cache_get, hp]
    · intro q _
      simp [cache_invalidate, hp]
  · have hsome : (r.pools.lookup p).isSome = true := by rw [hp]; rfl
    have hinv : cache_invalidate r p pre now = r.setPool p { c with entries := c.entries.filter (fun e => ! (decide (now < e.2.2) && e.1.startsWith pre)) } := by
      simp [cache_invalidate, hp, hpre]
    have hinv0 : cache_invalidate r p "" now = r.setPool p { c with entries := [] } := by
      simp [cache_invalidate, hp]
    refine ⟨?_, ?_, ?_, ?_⟩
    · intro key hkey
      rw [hinv]
      unfold cache_get CacheRegistry.setPool
      rw [lookup_setPool_self r.pools p _ hsome]
      exact getVal_invalidated_hit c pre key now hkey
    · intro key hkey
      rw [hinv]
      unfold cache_get CacheRegistry.setPool
      rw [lookup_setPool_self r.pools p _ hsome, hp]
      exact getVal_invalidated_miss c pre key now hkey
    · intro key
      rw [hinv0]
      unfold cache_get CacheRegistry.setPool
      rw [lookup_setPool_self r.pools p _ hsome]
      rfl
    · intro q hq
      rw [hinv]
      unfold CacheRegistry.setPool
      exact lookup_setPool_ne r.pools p q _ hq

theorem C2_witness :
    ("members:" ≠ ""
      ∧ (∀ key, String.startsWith key "members:" = true →
          cache_get (cache_invalidate corePoolsRegistry "org" "members:" 0) "org" key 0
            = PyVal.none)
      ∧ (∀ key, String.startsWith key "members:" = false →
          cache_get (cache_invalidate corePoolsRegistry "org" "members:" 0) "org" key 0
            = cache_get corePoolsRegistry "org" key 0)
      ∧ (∀ key, cache_get (cache_invalidate corePoolsRegistry "org" "" 0) "org" key 0
            = PyVal.none)
      ∧ (∀ q, q ≠ "org" →
          (cache_invalidate corePoolsRegistry "org" "members:" 0).pools.lookup q
            = corePoolsRegistry.pools.lookup q)) :=
  ⟨by decide, C2_prefix_invalidation corePoolsRegistry "org" "members:" 0 (by decide)⟩

/-- C3 counterexample: `cache_get` of the legacy facade
`backend/services/cache.py` on a pool name that is not registered does not
degrade to a miss — it raises `KeyError` — refuting the claim that every
`cache_get` on a missing pool returns the absent sentinel and never
raises. -/
theorem C3_counterexample :
    ServicesCache.pools.lookup "widgets" = Option.none
    ∧ ServicesCache.cache_get ServicesCache.pools "widgets" "k" 0
        = Except.error "KeyError: widgets" := by
  constructor <;> rfl

/-- C3 amended: on a pool name that has not been registered, the core
facade (`backend/core/cache.py`) degrades to a miss/no-op and never
raises — `cache_get` returns the absent sentinel and `cache_set`,
`cache_delete` and `cache_invalidate` leave the registry untouched — while
the legacy facade (`backend/services/cache.py`) raises `KeyError` instead. -/
theorem C3_amended_missing_pool (r : CacheRegistry) (p key : String) (v : PyVal)
    (now : Nat) (hp : r.pools.lookup p = Option.none) :
    cache_get r p key now = PyVal.none
    ∧ cache_set r p key v now = r
    ∧ cache_delete r p key now = r
    ∧ (∀ pre, cache_invalidate r p pre now = r)
    ∧ (ServicesCache.pools.lookup p = Option.none →
        ServicesCache.cache_get ServicesCache.pools p key now
          = Except.error ("KeyError: " ++ p)) := by
  refine ⟨?_, ?_, ?_, ?_, ?_⟩
  · simp [cache_get, hp]
  · simp [cache_set, hp]
  · simp [cache_delete, hp]
  · intro pre
    simp [cache_invalidate, hp]
  · intro hsp
    simp [ServicesCache.cache_get, hsp]

theorem C3_witness :
    (corePoolsRegistry.pools.lookup "widgets" = Option.none)
    ∧ (cache_get corePoolsRegistry "widgets" "k" 0 = PyVal.none
      ∧ cache_set corePoolsRegistry "widgets" "k" (PyVal.str "v") 0 = corePoolsRegistry
      ∧ cache_delete corePoolsRegistry "widgets" "k" 0 = corePoolsRegistry
      ∧ (∀ pre, cache_invalidate corePoolsRegistry "widgets" pre 0 = corePoolsRegistry)
      ∧ (ServicesCache.pools.lookup "widgets" = Option.none →
          ServicesCache.cache_get ServicesCache.pools "widgets" "k" 0
            = Except.error ("KeyError: " ++ "widgets"))) :=
  ⟨by decide,
   C3_amended_missing_pool corePoolsRegistry "widgets" "k" (PyVal.str "v") 0 (by decide)⟩

/-- A read of a key right after it was stored: the freshly-appended entry
wins (every surviving older entry has a different key), and read yields
the stored value while unexpired. -/
theorem getVal_setVal_self (c : TTLCache) (key : String) (v : PyVal) (now now2 : Nat) :
    (c.setVal key v now).getVal key now2
      = if now2 < now + c.ttl then v else PyVal.none := by
  have hmem : ∀ e ∈ evictOldest c.maxsize
      ((c.entries.filter (fun e => decide (now < e.2.2))).filter (fun e => ! (e.1 == key))),
      (e.1 == key) = false := by
    intro e he
    have hin : e ∈ (c.entries.filter (fun e => decide (now < e.2.2))).filter
        (fun e => ! (e.1 == key)) := by
      unfold evictOldest at he
      split at he
      · exact List.mem_of_mem_drop he
      · exact he
    have := List.of_mem_filter hin
    simpa using this
  have hfn : List.find? (fun e => e.1 == key)
      (evictOldest c.maxsize
        ((c.entries.filter (fun e => decide (now < e.2.2))).filter (fun e => ! (e.1 == key))))
      = Option.none := by
    apply List.find?_eq_none.mpr
    intro a ha
    simp [hmem a ha]
  show (match List.find? (fun e => e.1 == key)
      (evictOldest c.maxsize
        ((c.entries.filter (fun e => decide (now < e.2.2))).filter (fun e => ! (e.1 == key)))
      ++ [(key, v, now + c.ttl)]) with
    | Option.none => PyVal.none
    | some e => if now2 < e.2.2 then e.2.1 else PyVal.none)
    = if now2 < now + c.ttl then v else PyVal.none
  rw [find?_append_of_none _ _ _ hfn]
  simp [List.find?_cons]

/-- C10: the cache's absent sentinel is Python's `None` itself —
`cache_set(pool, key, None)` followed by `cache_get(pool, key)` yields
exactly what a `cache_get` of a never-stored key, an expired key, or a key
in a missing pool yields, so a caller cannot distinguish a cached `None`
from a miss at the public interface. -/
theorem C10_none_indistinguishable (r : CacheRegistry) (p key : String) (now now2 : Nat) :
    cache_get (cache_set r p key PyVal.none now) p key now2 = PyVal.none
    ∧ (∀ c key2, r.pools.lookup p = some c →
        c.entries.find? (fun e => e.1 == key2) = Option.none →
        cache_get r p key2 now = PyVal.none)
    ∧ (∀ c key2 e, r.pools.lookup p = some c →
        c.entries.find? (fun e => e.1 == key2) = some e → ¬ now < e.2.2 →
        cache_get r p key2 now = PyVal.none)
    ∧ (r.pools.lookup p = Option.none → ∀ key2, cache_get r p key2 now = PyVal.none) := by
  refine ⟨?_, ?_, ?_, ?_⟩
  · rcases hp : r.pools.lookup p with _ | c
    · simp [cache_set, cache_get, hp]
    · have hsome : (r.pools.lookup p).isSome = true := by rw [hp]; rfl
      have hset : cache_set r p key PyVal.none now = r.setPool p (c.setVal key PyVal.none now) := by
        simp [cache_set, hp]
      rw [hset]
      unfold cache_get CacheRegistry.setPool
      rw [lookup_setPool_self r.pools p _ hsome]
      show (c.setVal key PyVal.none now).getVal key now2 = PyVal.none
      rw [getVal_setVal_self]
      exact ite_self PyVal.none
  · intro c key2 hc hf
    unfold cache_get
    rw [hc]
    show (match List.find? (fun e => e.1 == key2) c.entries with
      | Option.none => PyVal.none
      | some e => if now < e.2.2 then e.2.1 else PyVal.none) = PyVal.none
    rw [hf]
  · intro c key2 e hc hf hexp
    unfold cache_get
    rw [hc]
    show (match List.find? (fun e => e.1 == key2) c.entries with
      | Option.none => PyVal.none
      | some e => if now < e.2.2 then e.2.1 else PyVal.none) = PyVal.none
    rw [hf]
    exact if_neg hexp
  · intro hp key2
    simp [cache_get, hp]

theorem C10_witness :
    cache_get (cache_set corePoolsRegistry "org" "members:1" PyVal.none 0) "org" "members:1" 1
        = PyVal.none
    ∧ (∀ c key2, corePoolsRegistry.pools.lookup "org" = some c →
        c.entries.find? (fun e => e.1 == key2) = Option.none →
        cache_get corePoolsRegistry "org" key2 0 = PyVal.none)
    ∧ (∀ c key2 e, corePoolsRegistry.pools.lookup "org" = some c →
        c.entries.find? (fun e => e.1 == key2) = some e → ¬ (0 : Nat) < e.2.2 →
        cache_get corePoolsRegistry "org" key2 0 = PyVal.none)
    ∧ (corePoolsRegistry.pools.lookup "org" = Option.none →
        ∀ key2, cache_get corePoolsRegistry "org" key2 0 = PyVal.none) :=
  C10_none_indistinguishable corePoolsRegistry "org" "members:1" 0 1

/-- Registering a name that already exists is a no-op. -/
theorem register_cache_pool_noop (r : CacheRegistry) (name : String) (m t : Nat)
    (h : (r.pools.lookup name).isSome = true) :
    register_cache_pool r name m t = r := by
  unfold register_cache_pool
  rcases hl : r.pools.lookup name with _ | c
  · rw [hl] at h
    simp at h
  · rfl

/-- Registering a fresh name appends a new empty pool under it. -/
theorem register_cache_pool_new (r : CacheRegistry) (name : String) (m t : Nat)
    (h : r.pools.lookup name = Option.none) :
    register_cache_pool r name m t
      = { pools := r.pools ++ [(name, { maxsize := m, ttl := t, entries := [] })] } := by
  unfold register_cache_pool
  rw [h]

/-- C6: `register_cache_pool` is idempotent with first-registration-wins
semantics — once a pool name exists, any further registration (even with
different parameters) is a silent no-op raising no error, and the name
stays bound to the first registration's `maxsize`/`ttl`. -/
theorem C6_register_pool_idempotent (r : CacheRegistry) (name : String)
    (m1 t1 m2 t2 : Nat) :
    register_cache_pool (register_cache_pool r name m1 t1) name m2 t2
      = register_cache_pool r name m1 t1
    ∧ (∀ c, r.pools.lookup name = some c → register_cache_pool r name m2 t2 = r)
    ∧ (r.pools.lookup name = Option.none →
        (register_cache_pool (register_cache_pool r name m1 t1) name m2 t2).pools.lookup name
          = some { maxsize := m1, ttl := t1, entries := [] }) := by
  rcases h : r.pools.lookup name with _ | c
  · have h1 := register_cache_pool_new r name m1 t1 h
    have h2 : (register_cache_pool r name m1 t1).pools.lookup name
        = some { maxsize := m1, ttl := t1, entries := [] } := by
      rw [h1]
      exact lookup_append_single r.pools name _ h
    have h3 : register_cache_pool (register_cache_pool r name m1 t1) name m2 t2
        = register_cache_pool r name m1 t1 :=
      register_cache_pool_noop _ name m2 t2 (by rw [h2]; rfl)
    refine ⟨h3, ?_, ?_⟩
    · intro c hc
      exact Option.noConfusion hc
    · intro _
      rw [h3]
      exact h2
  · have hs : (r.pools.lookup name).isSome = true := by rw [h]; rfl
    have h1 : register_cache_pool r name m1 t1 = r := register_cache_pool_noop r name m1 t1 hs
    refine ⟨?_, ?_, ?_⟩
    · rw [h1]
      exact register_cache_pool_noop r name m2 t2 hs
    · intro c2 _
      exact register_cache_pool_noop r name m2 t2 hs
    · intro hnone
      exact Option.noConfusion hnone

theorem C6_witness :
    (register_cache_pool (register_cache_pool corePoolsRegistry "wa-leads" 10 60)
        "wa-leads" 99 999
      = register_cache_pool corePoolsRegistry "wa-leads" 10 60)
    ∧ (∀ c, corePoolsRegistry.pools.lookup "wa-leads" = some c →
        register_cache_pool corePoolsRegistry "wa-leads" 99 999 = corePoolsRegistry)
    ∧ (corePoolsRegistry.pools.lookup "wa-leads" = Option.none →
        (register_cache_pool (register_cache_pool corePoolsRegistry "wa-leads" 10 60)
            "wa-leads" 99 999).pools.lookup "wa-leads"
          = some { maxsize := 10, ttl := 60, entries := [] }) :=
  C6_register_pool_idempotent corePoolsRegistry "wa-leads" 10 60 99 999

/-- C7 counterexample: the auth pool does not have the shortest TTL of the
core pools — the analytics pool's TTL (30s) is strictly shorter than
auth's (60s), in both `backend/core/cache.py` and
`backend/services/cache.py`. -/
theorem C7_counterexample :
    (corePoolsRegistry.pools.lookup "auth").map TTLCache.ttl = some 60
    ∧ (corePoolsRegistry.pools.lookup "analytics").map TTLCache.ttl = some 30
    ∧ ¬ (∀ q ∈ corePoolsRegistry.pools, ∀ ca,
          corePoolsRegistry.pools.lookup "auth" = some ca → ca.ttl ≤ q.2.ttl)
    ∧ (ServicesCache.pools.lookup "auth").map TTLCache.ttl = some 60
    ∧ (ServicesCache.pools.lookup "analytics").map TTLCache.ttl = some 30 := by
  decide

/-- C7 amended: among the core pools registered unconditionally at startup
(identical tables in `backend/core/cache.py` and
`backend/services/cache.py`), the near-static reference pool `plans` has
the strictly longest TTL (600s), but the shortest TTL belongs to the
`analytics` pool (30s), not to the auth/session pool (60s). -/
theorem C7_amended_ttl_ordering :
    (∀ q ∈ corePoolsRegistry.pools, q.1 ≠ "plans" → q.2.ttl < 600)
    ∧ (corePoolsRegistry.pools.lookup "plans").map TTLCache.ttl = some 600
    ∧ (∀ q ∈ corePoolsRegistry.pools, q.1 ≠ "analytics" → 30 < q.2.ttl)
    ∧ (corePoolsRegistry.pools.lookup "analytics").map TTLCache.ttl = some 30
    ∧ (∀ q ∈ ServicesCache.pools, q.1 ≠ "plans" → q.2.ttl < 600)
    ∧ (ServicesCache.pools.lookup "plans").map TTLCache.ttl = some 600
    ∧ (∀ q ∈ ServicesCache.pools, q.1 ≠ "analytics" → 30 < q.2.ttl)
    ∧ (ServicesCache.pools.lookup "analytics").map TTLCache.ttl = some 30 := by
  decide

theorem C7_witness :
    (("auth", ({ maxsize := 512, ttl := 60, entries := [] } : TTLCache))
        ∈ corePoolsRegistry.pools
      ∧ ("auth" : String) ≠ "analytics")
    ∧ 30 < ({ maxsize := 512, ttl := 60, entries := [] } : TTLCache).ttl :=
  ⟨⟨by decide, by decide⟩,
   C7_amended_ttl_ordering.2.2.1
     ("auth", { maxsize := 512, ttl := 60, entries := [] }) (by decide) (by decide)⟩

/-- C8: every `TaskLogger.log` call with the required fields performs
exactly one insert against the underlying store — on success the store
gains exactly one new row, whose server-assigned identifier is returned —
and a failing write propagates to the caller as an error, never silently
swallowed. -/
theorem C8_task_logger_exactly_one (db : Database) (org_id bot_id task_type : String)
    (task_detail : Option (List (String × PyVal))) (app_id triggered_by : Option String)
    (execution_time_ms tokens_used : Option Int) :
    (db.failing = false →
      ∃ db2 newId row,
        TaskLogger.log db org_id bot_id task_type task_detail app_id triggered_by
            execution_time_ms tokens_used = Except.ok (db2, newId)
        ∧ db2.rows = db.rows ++ [(newId, row)])
    ∧ (db.failing = true →
      ∃ msg, TaskLogger.log db org_id bot_id task_type task_detail app_id triggered_by
            execution_time_ms tokens_used = Except.error msg) := by
  constructor
  · intro hf
    unfold TaskLogger.log Database.insert
    rw [hf]
    simp only [Bool.false_eq_true, if_false]
    exact ⟨_, _, _, rfl, rfl⟩
  · intro hf
    unfold TaskLogger.log Database.insert
    rw [hf]
    simp only [if_true]
    exact ⟨_, rfl⟩

theorem C8_witness :
    (({ rows := [], nextId := 0, failing := false } : Database).failing = false
      → ∃ db2 newId row,
          TaskLogger.log { rows := [], nextId := 0, failing := false } "org-1" "lead-agent"
              "prospect_scraped" Option.none (some "workforce-accelerator") Option.none
              (some 1200) (some 900) = Except.ok (db2, newId)
          ∧ db2.rows = ({ rows := [], nextId := 0, failing := false } : Database).rows
              ++ [(newId, row)])
    ∧ (({ rows := [], nextId := 0, failing := false } : Database).failing = true
      → ∃ msg, TaskLogger.log { rows := [], nextId := 0, failing := false } "org-1" "lead-agent"
              "prospect_scraped" Option.none (some "workforce-accelerator") Option.none
              (some 1200) (some 900) = Except.error msg) :=
  C8_task_logger_exactly_one { rows := [], nextId := 0, failing := false } "org-1"
    "lead-agent" "prospect_scraped" Option.none (some "workforce-accelerator") Option.none
    (some 1200) (some 900)
